import Mathlib

/-!
Shallow embedding of `src/snapText.js` (pqina/snaptext).

Conventions:
* JS numbers are modelled as rationals (`ℚ`); all arithmetic in the embedded
  fragments is exact in the source formulas, so `ℚ` is faithful for the
  properties stated here.
* JS strings are modelled as `List Char`.
* `undefined` values (an absent `width`/`height` option, an out-of-range
  `DOMRectList` access) are modelled with `Option`.
* The geometric measurement boundary (`Range.getClientRects`) is a parameter
  `rects : Nat → List Rect`, where `rects e` is the rectangle list reported
  for the selection of characters `[0, e)` of the probed text node.
* The computed-style boundary (`getComputedStyle(...).getPropertyValue`) is a
  parameter `style : String → String`.
-/

namespace SnapText

/-- A DOMRect, as consumed by `toShape` (fields `x`, `y`, `width`, `height`). -/
structure Rect where
  x : ℚ
  y : ℚ
  width : ℚ
  height : ℚ
deriving DecidableEq, Repr

/-- One element of the list returned by `getTextNodeLines`: the source builds
`{ rect: clientRects[index], text: line }`, where `clientRects[index]` is
`undefined` (here `none`) when `index` is out of range of the rect list. -/
structure LineEntry where
  rect : Option Rect
  text : List Char
deriving DecidableEq, Repr

/-- The `Shape` record of the source (`x`, `y`, `width`, `height`, `text`,
`styles`). -/
structure Shape where
  x : ℚ
  y : ℚ
  width : ℚ
  height : ℚ
  text : List Char
  styles : List (String × String)
deriving DecidableEq, Repr

/-- Source lines 85–93: the fixed ordered list of tracked style properties,
each paired with the value that is ignored (not emitted). -/
def RelevantShapeStyles : List (String × String) :=
  [(("color"), ("rgba(0, 0, 0, 0)")),
   (("background-color"), ("rgba(0, 0, 0, 0)")),
   (("font-size"), ("0px")),
   (("font-family"), ("sans-serif")),
   (("font-weight"), ("400")),
   (("font-style"), ("normal")),
   (("font-variant"), ("normal"))]

/-- Source lines 122–135, `toShape(rect, style, text)`.  The JS
`map(...).filter(Boolean)` over `RelevantShapeStyles` (mapping a pair to
`undefined` when the resolved value equals the ignorable default) is exactly
`List.filterMap`. -/
def toShape (rect : Rect) (style : String → String) (text : List Char) : Shape :=
  { x := rect.x
    y := rect.y
    width := rect.width
    height := rect.height
    styles := RelevantShapeStyles.filterMap (fun pv =>
      if style pv.1 = pv.2 then none else some (pv.1, style pv.1))
    text := text }

/-- Whitespace for the JS `String.prototype.trim` calls in the source (the
inputs of interest only involve ASCII whitespace). -/
def isJsWhitespace (c : Char) : Bool :=
  c = ' ' || c = '\t' || c = '\n' || c = '\r'

/-- JS `str.trim()`: strip leading and trailing whitespace. -/
def jsTrim (l : List Char) : List Char :=
  ((l.dropWhile isJsWhitespace).reverse.dropWhile isJsWhitespace).reverse

/-- Source lines 177–190, the body of the probing loop of
`getTextNodeLines` for one character.  `ich` is the pair `(i, text.charAt(i))`.
`lineIndex` is `range.getClientRects().length - 1` for the selection
`[0, i+1)`; it is an `Int` because the JS value is `-1` when the measurement
reports no rectangles.  The JS test `!lines[lineIndex]` is true when
`lineIndex` is out of range (the indexing yields `undefined`) or the buffer is
the empty string; in that case the character is pushed as a new buffer at the
END of `lines`, otherwise it is appended to the buffer at `lineIndex`. -/
def probeStep (rects : Nat → List Rect) (lines : List (List Char)) :
    Nat × Char → List (List Char)
  | (i, ch) =>
    let lineIndex : Int := ((rects (i + 1)).length : Int) - 1
    if 0 ≤ lineIndex ∧ lineIndex.toNat < lines.length ∧
        lines[lineIndex.toNat]? ≠ some [] then
      lines.set lineIndex.toNat ((lines[lineIndex.toNat]?.getD []) ++ [ch])
    else
      lines ++ [[ch]]

/-- The probing loop of `getTextNodeLines` (source lines 175–190): fold
`probeStep` over the characters of the text node, in index order, starting
from the empty buffer list. -/
def probeLines (text : List Char) (rects : Nat → List Rect) : List (List Char) :=
  (text.enum).foldl (probeStep rects) []

/-- Source lines 193–197: `lines.map((line, index) => ({ rect: clientRects[index], text: line }))`,
where `clientRects` is the rect list of the full selection. -/
def zipRects (clientRects : List Rect) (lines : List (List Char)) : List LineEntry :=
  lines.enum.map (fun il => ⟨clientRects[il.1]?, il.2⟩)

/-- Source lines 166–198, `getTextNodeLines(textNode)`.  An empty text
(`!text`) returns the empty list without probing. -/
def getTextNodeLines (text : List Char) (rects : Nat → List Rect) : List LineEntry :=
  if text = [] then []
  else zipRects (rects text.length) (probeLines text rects)

/-- Source lines 142–159, `getTextShapes(textNode)`.  A `none` result models
the TypeError thrown when `toShape` dereferences a missing (`undefined`)
rectangle of a surviving line entry; `some` is the normal return. -/
def getTextShapes (text : List Char) (rects : Nat → List Rect)
    (style : String → String) : Option (List Shape) :=
  if text = [] then some []
  else if jsTrim text = [] then some []
  else
    let lines := (getTextNodeLines text rects).filter (fun e => jsTrim e.text ≠ [])
    lines.mapM (fun e => e.rect.map (fun r => toShape r style e.text))

/-- The characters of `text`, among the first `m`, whose probed line index
(the rectangle count of the selection through the character, minus one)
equals `j`, in text order — the content the claim ascribes to the text
buffer at index `j`. -/
def charsUpTo (text : List Char) (rects : Nat → List Rect) (m j : Nat) : List Char :=
  (List.range m).filterMap (fun k =>
    if (rects (k + 1)).length - 1 = j then text[k]? else none)

/-- `Number.MAX_SAFE_INTEGER`, the sentinel initial value of the running
minima in `normalizeShapes` and `getSizeFromShapes`. -/
def MAX_SAFE_INTEGER : ℚ := 9007199254740991

/-- Source lines 205–222, `normalizeShapes(shapes)`: compute the running
minima of `x` and `y` (initialised with `Number.MAX_SAFE_INTEGER`) and
subtract them from every shape. -/
def normalizeShapes (shapes : List Shape) : List Shape :=
  let lt := shapes.foldl
    (fun (acc : ℚ × ℚ) s =>
      (if s.x < acc.1 then s.x else acc.1,
       if s.y < acc.2 then s.y else acc.2))
    (MAX_SAFE_INTEGER, MAX_SAFE_INTEGER)
  shapes.map (fun s => { s with x := s.x - lt.1, y := s.y - lt.2 })

/-- Source lines 229–246, `getSizeFromShapes(shapes)`: running minima of
`x`/`y` (initialised with `Number.MAX_SAFE_INTEGER`) and running maxima of
`x+width`/`y+height` (initialised with `0`); the result is
`(r - l, b - t)`. -/
def getSizeFromShapes (shapes : List Shape) : ℚ × ℚ :=
  let ltrb := shapes.foldl
    (fun (acc : ℚ × ℚ × ℚ × ℚ) s =>
      (if s.x < acc.1 then s.x else acc.1,
       if s.y < acc.2.1 then s.y else acc.2.1,
       if s.x + s.width > acc.2.2.1 then s.x + s.width else acc.2.2.1,
       if s.y + s.height > acc.2.2.2 then s.y + s.height else acc.2.2.2))
    (MAX_SAFE_INTEGER, MAX_SAFE_INTEGER, 0, 0)
  (ltrb.2.2.1 - ltrb.1, ltrb.2.2.2 - ltrb.2.1)

/-- JS truthiness of an optional number: `undefined` and `0` are falsy. -/
def truthyQ (o : Option ℚ) : Bool := o.getD 0 ≠ 0

/-- Source lines 286–287, the two padding clamps of `shapesToSvg`:
`padding = width && padding ? Math.min(padding, width * 0.5) : padding` and
then the same against `height`, applied to the already-clamped value. -/
def clampPad (width? height? : Option ℚ) (padding : ℚ) : ℚ :=
  let p1 := if truthyQ width? ∧ padding ≠ 0
    then min padding (width?.getD 0 * (1/2)) else padding
  if truthyQ height? ∧ p1 ≠ 0 then min p1 (height?.getD 0 * (1/2)) else p1

/-- The numeric outputs of `shapesToSvg`: resolved output size, clamped
padding, content scalar, the viewBox offsets, and the declared (scalar
multiplied) dimensions of the `<svg>` element. -/
structure Layout where
  width : ℚ
  height : ℚ
  padding : ℚ
  contentScalar : ℚ
  offsetX : ℚ
  offsetY : ℚ
  declaredWidth : ℚ
  declaredHeight : ℚ
deriving DecidableEq, Repr

/-- Source lines 282–320 and 356–361 of `shapesToSvg(shapes, options)`: the
size/scale/padding resolution and the emitted numeric attributes.  Branch
conditions follow the JS truthiness of `width`/`height` exactly
(`typeof width === 'number'` is `Option.isSome`; `width && ...` is
`truthyQ`).  In the residual branch in which a dimension stays `undefined`
in JS (e.g. `width = some 0`, `height = none`) the JS output would contain
`undefined`/`NaN` text; that branch is modelled with `getD 0` and is not
relied upon by any theorem below. -/
def shapesToSvgLayout (shapes : List Shape) (width? height? : Option ℚ)
    (padding scalar : ℚ) : Layout :=
  let contentSize := getSizeFromShapes shapes
  let pad := clampPad width? height? padding
  let paddingDouble := pad * 2
  let resolved : ℚ × ℚ × ℚ :=
    if width?.isSome ∨ height?.isSome then
      let aspectRatio := contentSize.1 / contentSize.2
      if truthyQ width? ∧ ¬ truthyQ height? then
        (width?.getD 0,
         (width?.getD 0 - paddingDouble) / aspectRatio + paddingDouble,
         (width?.getD 0 - paddingDouble) / contentSize.1)
      else if truthyQ height? ∧ ¬ truthyQ width? then
        ((height?.getD 0 - paddingDouble) * aspectRatio + paddingDouble,
         height?.getD 0,
         (height?.getD 0 - paddingDouble) / contentSize.2)
      else if truthyQ width? ∧ truthyQ height? then
        (width?.getD 0, height?.getD 0,
         min ((height?.getD 0 - paddingDouble) / contentSize.2)
             ((width?.getD 0 - paddingDouble) / contentSize.1))
      else (width?.getD 0, height?.getD 0, 1)
    else (contentSize.1 + paddingDouble, contentSize.2 + paddingDouble, 1)
  { width := resolved.1
    height := resolved.2.1
    padding := pad
    contentScalar := resolved.2.2
    offsetX := (contentSize.1 * resolved.2.2 - resolved.1) * (1/2) + pad
    offsetY := (contentSize.2 * resolved.2.2 - resolved.2.1) * (1/2) + pad
    declaredWidth := resolved.1 * scalar
    declaredHeight := resolved.2.1 * scalar }

/-- JS `str.replace(/c/g, repl)` for a single-character pattern `c`: replace
every occurrence of `c` by `repl`. -/
def replaceChar (l : List Char) (target : Char) (repl : List Char) : List Char :=
  l.flatMap (fun c => if c = target then repl else [c])

/-- Source lines 260–267, `encodeSvgText(str)`: the six global replacements,
in source order. -/
def encodeSvgText (str : List Char) : List Char :=
  replaceChar
    (replaceChar
      (replaceChar
        (replaceChar
          (replaceChar
            (replaceChar str '&' ['&', 'a', 'm', 'p', ';'])
            '%' ['%', '2', '5'])
          '#' ['%', '2', '3'])
        ' ' ['&', '#', '1', '6', '0', ';'])
      '<' ['&', 'l', 't', ';'])
    '>' ['&', 'g', 't', ';']

/-- The per-character image of the whole `encodeSvgText` pipeline (the six
passes never rewrite a character introduced by an earlier pass, so the
composition acts characterwise; proved below as `encodeSvgText_eq_bind`). -/
def encChar (c : Char) : List Char :=
  if c = '&' then ['&', 'a', 'm', 'p', ';']
  else if c = '%' then ['%', '2', '5']
  else if c = '#' then ['%', '2', '3']
  else if c = ' ' then ['&', '#', '1', '6', '0', ';']
  else if c = '<' then ['&', 'l', 't', ';']
  else if c = '>' then ['&', 'g', 't', ';']
  else [c]

/-- Well-formedness of an escaped string: no literal `<`, `>` or space; every
`%` begins a produced `%25` or `%23` escape; every `#` occurs only inside a
produced `&#160;` entity; every `&` begins a produced `&amp;`, `&#160;`,
`&lt;` or `&gt;` entity. -/
def escapedWellFormed : List Char → Bool
  | [] => true
  | c :: r =>
    if c = '%' then
      (r.take 2 = ['2', '5'] || r.take 2 = ['2', '3']) && escapedWellFormed (r.drop 2)
    else if c = '&' then
      (if r.take 4 = ['a', 'm', 'p', ';'] then escapedWellFormed (r.drop 4)
       else if r.take 5 = ['#', '1', '6', '0', ';'] then escapedWellFormed (r.drop 5)
       else if r.take 3 = ['l', 't', ';'] then escapedWellFormed (r.drop 3)
       else if r.take 3 = ['g', 't', ';'] then escapedWellFormed (r.drop 3)
       else false)
    else if c = '#' then false
    else if c = '<' then false
    else if c = '>' then false
    else if c = ' ' then false
    else escapedWellFormed r
  termination_by l => l.length
  decreasing_by
    all_goals simp [List.length_drop]
    all_goals omega

/-- Decidable test that `pat` is an initial segment of `l`. -/
def startsWithL : List Char → List Char → Bool
  | [], _ => true
  | _ :: _, [] => false
  | p :: ps, c :: cs => (p = c) && startsWithL ps cs

/-- Decidable test that `pat` occurs somewhere inside `l` (what the JS regex
`.test` does for a literal alternative). -/
def hasSub : List Char → List Char → Bool
  | [], pat => startsWithL pat []
  | c :: r, pat => startsWithL pat (c :: r) || hasSub r pat

/-- Source line 40: `/canvas|img|svg|blob/.test(format)` — the format is
accepted when it CONTAINS one of the four alternatives as a substring; the
snapshot operation throws `Invalid format` exactly when this is `false`. -/
def formatAccepted (format : List Char) : Bool :=
  hasSub format ['c', 'a', 'n', 'v', 'a', 's'] ||
  hasSub format ['i', 'm', 'g'] ||
  hasSub format ['s', 'v', 'g'] ||
  hasSub format ['b', 'l', 'o', 'b']

/-! Line probing (source lines 166–198): the rectangle-count bookkeeping of
the probing loop, under the measurement behaviour the spec attributes to the
boundary (the rectangle count of the growing selection starts at one and
never decreases, growing by at most one per character). -/

lemma counts_pos (rects : Nat → List Rect) (h1 : (rects 1).length = 1)
    (hstep : ∀ i, (rects (i + 2)).length = (rects (i + 1)).length ∨
      (rects (i + 2)).length = (rects (i + 1)).length + 1) :
    ∀ i, 1 ≤ (rects (i + 1)).length := by
  intro i
  induction i with
  | zero => simp [h1]
  | succ n ih =>
    have h := hstep n
    have he : n + 2 = n + 1 + 1 := by omega
    rw [he] at h
    omega

lemma counts_mono (rects : Nat → List Rect)
    (hstep : ∀ i, (rects (i + 2)).length = (rects (i + 1)).length ∨
      (rects (i + 2)).length = (rects (i + 1)).length + 1) :
    ∀ i j, i ≤ j → (rects (i + 1)).length ≤ (rects (j + 1)).length := by
  intro i j hij
  induction j with
  | zero =>
    have : i = 0 := by omega
    subst this
    exact le_refl _
  | succ n ih =>
    have h := hstep n
    have he : n + 2 = n + 1 + 1 := by omega
    rw [he] at h
    by_cases hin : i ≤ n
    · have := ih hin
      omega
    · have : i = n + 1 := by omega
      subst this
      exact le_refl _

lemma counts_surj (rects : Nat → List Rect) (h1 : (rects 1).length = 1)
    (hstep : ∀ i, (rects (i + 2)).length = (rects (i + 1)).length ∨
      (rects (i + 2)).length = (rects (i + 1)).length + 1) :
    ∀ m, 1 ≤ m → ∀ j, j < (rects m).length →
      ∃ k, k < m ∧ (rects (k + 1)).length = j + 1 := by
  intro m
  induction m with
  | zero => omega
  | succ n ih =>
    intro _ j hj
    by_cases hn : n = 0
    · subst hn
      rw [h1] at hj
      exact ⟨0, by omega, by simp only [Nat.zero_add, h1]; omega⟩
    · obtain ⟨n', rfl⟩ : ∃ n', n = n' + 1 := ⟨n - 1, by omega⟩
      have h := hstep n'
      have he : n' + 2 = n' + 1 + 1 := by omega
      rw [he] at h
      rcases h with h2 | h2
      · obtain ⟨k, hk, hke⟩ := ih (by omega) j (by omega)
        exact ⟨k, by omega, hke⟩
      · by_cases hj2 : j < (rects (n' + 1)).length
        · obtain ⟨k, hk, hke⟩ := ih (by omega) j hj2
          exact ⟨k, by omega, hke⟩
        · exact ⟨n' + 1, by omega, by omega⟩

lemma charsUpTo_succ (text : List Char) (rects : Nat → List Rect) (m j : Nat) :
    charsUpTo text rects (m + 1) j
      = charsUpTo text rects m j ++
        (if (rects (m + 1)).length - 1 = j then (text[m]?).toList else []) := by
  unfold charsUpTo
  rw [List.range_succ, List.filterMap_append]
  congr 1
  by_cases h : (rects (m + 1)).length - 1 = j
  · cases hg : text[m]? <;> simp [h, hg]
  · simp [h]

lemma charsUpTo_ne_nil (text : List Char) (rects : Nat → List Rect) (m j : Nat)
    (hm : m ≤ text.length)
    (hex : ∃ k, k < m ∧ (rects (k + 1)).length - 1 = j) :
    charsUpTo text rects m j ≠ [] := by
  obtain ⟨k, hk, hkj⟩ := hex
  intro hnil
  rw [charsUpTo, List.filterMap_eq_nil_iff] at hnil
  have hk2 := hnil k (List.mem_range.mpr hk)
  rw [if_pos hkj] at hk2
  rw [List.getElem?_eq_none_iff] at hk2
  omega

lemma charsUpTo_hi_nil (text : List Char) (rects : Nat → List Rect) (m j : Nat)
    (h : ∀ k, k < m → (rects (k + 1)).length - 1 ≠ j) :
    charsUpTo text rects m j = [] := by
  rw [charsUpTo, List.filterMap_eq_nil_iff]
  intro k hk
  rw [if_neg (h k (List.mem_range.mp hk))]

lemma filterMap_getElem_range (l : List Char) :
    (List.range l.length).filterMap (fun k => l[k]?) = l := by
  induction l with
  | nil => rfl
  | cons a l ih =>
    rw [List.length_cons, List.range_succ_eq_map, List.filterMap_cons,
      List.filterMap_map]
    simp only [List.getElem?_cons_zero]
    rw [show ((fun k => (a :: l)[k]?) ∘ Nat.succ) = (fun k => l[k]?) from
      funext fun k => by simp]
    rw [ih]

lemma probe_loop_inv (text : List Char) (rects : Nat → List Rect)
    (h1 : (rects 1).length = 1)
    (hstep : ∀ i, (rects (i + 2)).length = (rects (i + 1)).length ∨
      (rects (i + 2)).length = (rects (i + 1)).length + 1) :
    ∀ (suffix : List Char) (m : Nat) (lines : List (List Char)),
      1 ≤ m → m ≤ text.length → text.drop m = suffix →
      lines.length = (rects m).length →
      (∀ j, j < (rects m).length →
        lines[j]? = some (charsUpTo text rects m j)) →
      ((suffix.enumFrom m).foldl (probeStep rects) lines).length
          = (rects text.length).length ∧
      (∀ j, j < (rects text.length).length →
        ((suffix.enumFrom m).foldl (probeStep rects) lines)[j]?
          = some (charsUpTo text rects text.length j)) := by
  intro suffix
  induction suffix with
  | nil =>
    intro m lines hm hmle hdrop hlen hget
    have hmn : m = text.length :=
      le_antisymm hmle (List.drop_eq_nil_iff.mp hdrop)
    subst hmn
    exact ⟨hlen, hget⟩
  | cons ch rest ih =>
    intro m lines hm hmle hdrop hlen hget
    have hmlt : m < text.length := by
      rcases Nat.lt_or_ge m text.length with h | h
      · exact h
      · rw [List.drop_eq_nil_iff.mpr h] at hdrop
        simp at hdrop
    have hgetm : text[m]? = some ch := by
      have h0 : (text.drop m)[0]? = some ch := by rw [hdrop]; simp
      rw [List.getElem?_drop] at h0
      simpa using h0
    have hdrop2 : text.drop (m + 1) = rest := by
      have hd : text.drop (m + 1) = (text.drop m).drop 1 := by
        rw [List.drop_drop]
      rw [hd, hdrop]
      rfl
    rw [List.enumFrom_cons, List.foldl_cons]
    obtain ⟨m', rfl⟩ : ∃ m', m = m' + 1 := ⟨m - 1, by omega⟩
    have hpos1 : 1 ≤ (rects (m' + 1)).length := counts_pos rects h1 hstep m'
    have hc := hstep m'
    rw [show m' + 2 = m' + 1 + 1 by omega] at hc
    rcases hc with hc | hc
    · -- the rectangle count is unchanged: the character is appended to the
      -- buffer at the last index
      have hidxN : ((((rects (m' + 1 + 1)).length : Int) - 1)).toNat
          = (rects (m' + 1)).length - 1 := by omega
      have hlast : (rects (m' + 1)).length - 1 < lines.length := by omega
      have hbufget := hget ((rects (m' + 1)).length - 1) (by omega)
      have hbufne : charsUpTo text rects (m' + 1)
          ((rects (m' + 1)).length - 1) ≠ [] := by
        apply charsUpTo_ne_nil text rects _ _ (by omega)
        obtain ⟨k, hk, hke⟩ := counts_surj rects h1 hstep (m' + 1) (by omega)
          ((rects (m' + 1)).length - 1) (by omega)
        exact ⟨k, hk, by omega⟩
      have hstep_eq : probeStep rects lines (m' + 1, ch)
          = lines.set ((rects (m' + 1)).length - 1)
              (charsUpTo text rects (m' + 1) ((rects (m' + 1)).length - 1)
                ++ [ch]) := by
        simp only [probeStep]
        rw [if_pos ⟨by omega, by rw [hidxN]; exact hlast, by
          rw [hidxN, hbufget]
          intro hx
          injection hx with hx2
          exact hbufne hx2⟩]
        rw [hidxN, hbufget]
        rfl
      rw [hstep_eq]
      refine ih (m' + 1 + 1) _ (by omega) (by omega) hdrop2 ?_ ?_
      · rw [List.length_set, hlen]
        omega
      · intro j hj
        by_cases hje : j = (rects (m' + 1)).length - 1
        · subst hje
          rw [List.getElem?_set_self (by omega)]
          rw [charsUpTo_succ text rects (m' + 1), if_pos (by omega), hgetm]
          rfl
        · rw [List.getElem?_set_ne (by omega)]
          rw [hget j (by omega), charsUpTo_succ text rects (m' + 1),
            if_neg (by omega)]
          simp
    · -- the rectangle count grew by one: a new buffer is pushed at the end
      have hidxN : ((((rects (m' + 1 + 1)).length : Int) - 1)).toNat
          = (rects (m' + 1)).length := by omega
      have hstep_eq : probeStep rects lines (m' + 1, ch) = lines ++ [[ch]] := by
        simp only [probeStep]
        rw [if_neg]
        rintro ⟨h0, hlt, hne2⟩
        rw [hidxN, hlen] at hlt
        omega
      rw [hstep_eq]
      refine ih (m' + 1 + 1) _ (by omega) (by omega) hdrop2 ?_ ?_
      · rw [List.length_append, hlen]
        simp
        omega
      · intro j hj
        by_cases hje : j = (rects (m' + 1)).length
        · subst hje
          rw [List.getElem?_append_right (by omega)]
          rw [hlen]
          simp only [Nat.sub_self, List.getElem?_cons_zero]
          rw [charsUpTo_succ text rects (m' + 1), if_pos (by omega), hgetm]
          rw [charsUpTo_hi_nil text rects (m' + 1) _ ?_]
          · rfl
          · intro k hk
            have := counts_mono rects hstep k m' (by omega)
            omega
        · have hjlt : j < (rects (m' + 1)).length := by omega
          rw [List.getElem?_append_left (by omega)]
          rw [hget j hjlt, charsUpTo_succ text rects (m' + 1), if_neg (by omega)]
          simp

/-- C1: when the measurement boundary behaves as the spec describes (the
rectangle count of the selection through the first character is one, and it
grows by zero or one per further character), the probing loop stores each
character at buffer index `rectangle-count − 1`, creating a new buffer the
first time an index appears: the final buffer list has one buffer per
rectangle of the full selection and the buffer at index `j` holds exactly
the characters whose selection measured `j + 1` rectangles; the output zips
the full selection's rectangle at each index with that buffer.  In
particular, when every prefix selection and the full extent measure as one
rectangle, probing returns exactly one line holding the entire run. -/
theorem line_prober_accumulation (text : List Char) (rects : Nat → List Rect)
    (hne : text ≠ [])
    (h1 : (rects 1).length = 1)
    (hstep : ∀ i, (rects (i + 2)).length = (rects (i + 1)).length ∨
      (rects (i + 2)).length = (rects (i + 1)).length + 1) :
    (probeLines text rects).length = (rects text.length).length ∧
    (∀ j, j < (rects text.length).length →
      (probeLines text rects)[j]? = some (charsUpTo text rects text.length j)) ∧
    getTextNodeLines text rects
      = zipRects (rects text.length) (probeLines text rects) ∧
    ((∀ i, i < text.length → (rects (i + 1)).length = 1) →
      ∀ r : Rect, rects text.length = [r] →
      getTextNodeLines text rects = [⟨some r, text⟩]) := by
  obtain ⟨t0, ttail, rfl⟩ : ∃ t0 tt, text = t0 :: tt := by
    cases text with
    | nil => exact absurd rfl hne
    | cons a l => exact ⟨a, l, rfl⟩
  have hfirst : probeStep rects [] (0, t0) = [[t0]] := by
    simp only [probeStep]
    rw [if_neg]
    · rfl
    · rintro ⟨-, hlt, -⟩
      simp at hlt
  have hstart : probeLines (t0 :: ttail) rects
      = ((ttail.enumFrom 1).foldl (probeStep rects) [[t0]]) := by
    unfold probeLines
    rw [List.enum_cons, List.foldl_cons, hfirst]
  have hinv := probe_loop_inv (t0 :: ttail) rects h1 hstep ttail 1 [[t0]]
    (le_refl 1) (by simp) rfl
    (by simpa using h1.symm)
    (by
      intro j hj
      rw [h1] at hj
      have hj0 : j = 0 := by omega
      subst hj0
      unfold charsUpTo
      rw [show List.range 1 = [0] from by rw [List.range_succ]; rfl]
      simp [h1])
  rw [hstart]
  obtain ⟨hlen, hget⟩ := hinv
  have hzip : getTextNodeLines (t0 :: ttail) rects
      = zipRects (rects (t0 :: ttail).length)
          ((ttail.enumFrom 1).foldl (probeStep rects) [[t0]]) := by
    rw [getTextNodeLines, if_neg (by simp), hstart]
  refine ⟨hlen, hget, hzip, ?_⟩
  intro hall r hr
  have hn1 : (rects (t0 :: ttail).length).length = 1 := by
    rw [hr]
    rfl
  have hchars : charsUpTo (t0 :: ttail) rects (t0 :: ttail).length 0
      = t0 :: ttail := by
    unfold charsUpTo
    rw [List.filterMap_congr (fun k hk => by
      rw [if_pos (by rw [hall k (List.mem_range.mp hk)])])]
    exact filterMap_getElem_range _
  have hget0 := hget 0 (by rw [hn1]; omega)
  rw [hchars] at hget0
  have hlines : ((ttail.enumFrom 1).foldl (probeStep rects) [[t0]])
      = [t0 :: ttail] := by
    rcases hpl : ((ttail.enumFrom 1).foldl (probeStep rects) [[t0]]) with
      _ | ⟨a, _ | ⟨b, l2⟩⟩
    · rw [hpl] at hlen
      rw [hn1] at hlen
      simp at hlen
    · rw [hpl] at hget0
      simp at hget0
      rw [hget0]
    · rw [hpl] at hlen
      rw [hn1] at hlen
      simp at hlen
  rw [hzip, hlines, hr]
  simp [zipRects, List.enum_cons]

theorem line_prober_accumulation_witness :
    getTextNodeLines ['h', 'i'] (fun _ => [⟨1, 2, 3, 4⟩])
      = [⟨some ⟨1, 2, 3, 4⟩, ['h', 'i']⟩] :=
  (line_prober_accumulation ['h', 'i'] (fun _ => [⟨1, 2, 3, 4⟩])
    (by decide) rfl (fun _ => Or.inl rfl)).2.2.2
    (fun _ _ => rfl) ⟨1, 2, 3, 4⟩ rfl

/-! Sanity checks of the embedding on concrete inputs. -/

example : encodeSvgText ['&'] = ['&', 'a', 'm', 'p', ';'] := by decide

example : encodeSvgText ['a', ' ', 'b'] =
    ['a', '&', '#', '1', '6', '0', ';', 'b'] := by decide

example : getSizeFromShapes [⟨0, 0, 100, 50, [], []⟩] = (100, 50) := by
  norm_num [getSizeFromShapes, MAX_SAFE_INTEGER]

example : formatAccepted ['s', 'v', 'g'] = true := by decide

example : formatAccepted ['f', 'o', 'o'] = false := by decide

example : escapedWellFormed ['&', 'a', 'm', 'p', ';', 'x'] = true := by
  simp [escapedWellFormed]

example : escapedWellFormed ['#'] = false := by
  simp [escapedWellFormed]

/-- C10: the text encoder is not idempotent: escaping the output of
`escape("&")` re-escapes the ampersand of the produced `&amp;` entity, so the
two differ. -/
theorem encode_not_idempotent :
    encodeSvgText (encodeSvgText ['&']) ≠ encodeSvgText ['&'] := by decide

/-- C5 (code evaluated at the failing input): for the run `"ab"` whose every
selection measures zero rectangles (a detached or zero-size element), the
probing loop does NOT return the empty result: it creates one buffer per
character, pairs each with a missing rectangle, and the subsequent shape
construction dereferences the missing rectangle (`none` models the TypeError
thrown by `toShape` on an `undefined` rect). -/
theorem zero_rects_probe_bug :
    getTextNodeLines ['a', 'b'] (fun _ => []) =
      [⟨none, ['a']⟩, ⟨none, ['b']⟩] ∧
    getTextShapes ['a', 'b'] (fun _ => []) (fun _ => ("")) = none := by
  constructor <;> decide

/-- C3 (code evaluated at the failing input): for the empty shape list with no
requested dimensions and zero padding, the degenerate content extents
(`0 - Number.MAX_SAFE_INTEGER`) propagate into the emitted document, whose
declared width and height are the negative number `-(2^53 - 1)` instead of a
zero or caller-requested size. -/
theorem empty_shapes_negative_size :
    (shapesToSvgLayout [] none none 0 1).declaredWidth = -9007199254740991 ∧
    (shapesToSvgLayout [] none none 0 1).declaredHeight = -9007199254740991 ∧
    (shapesToSvgLayout [] none none 0 1).declaredWidth < 0 := by
  norm_num [shapesToSvgLayout, getSizeFromShapes, clampPad, truthyQ, MAX_SAFE_INTEGER]

/-- C4 counterexample: the format string `"imgx"` is outside the set
`{svg, canvas, img, blob}`, yet the regex test of source line 40 accepts it
(no invalid-format error is raised), because the test is a substring search. -/
theorem format_substring_counterexample :
    formatAccepted ['i', 'm', 'g', 'x'] = true ∧
    ['i', 'm', 'g', 'x'] ≠ ['s', 'v', 'g'] ∧
    ['i', 'm', 'g', 'x'] ≠ ['c', 'a', 'n', 'v', 'a', 's'] ∧
    ['i', 'm', 'g', 'x'] ≠ ['i', 'm', 'g'] ∧
    ['i', 'm', 'g', 'x'] ≠ ['b', 'l', 'o', 'b'] := by
  refine ⟨?_, ?_, ?_, ?_, ?_⟩ <;> decide

/-- C7 counterexample: for the one-element shape list whose `x` is `2^54`
(larger than the `Number.MAX_SAFE_INTEGER` sentinel that initialises the
running minimum), normalization leaves the minimum `x` at `2^53 + 1 ≠ 0`. -/
theorem normalize_sentinel_counterexample :
    (normalizeShapes [⟨18014398509481984, 0, 1, 1, [], []⟩]).map Shape.x =
      [9007199254740993] ∧
    (9007199254740993 : ℚ) ≠ 0 := by
  norm_num [normalizeShapes, MAX_SAFE_INTEGER]

/-! Padding clamp (source lines 286–287) and size resolution (282–320). -/

lemma clampPad_w_only (w p : ℚ) (hw : 0 < w) :
    clampPad (some w) none p = min p (w * (1/2)) := by
  by_cases hp : p = 0
  · subst hp
    rw [show clampPad (some w) none 0 = 0 by simp [clampPad, truthyQ]]
    exact (min_eq_left (by positivity)).symm
  · simp [clampPad, truthyQ, hp, ne_of_gt hw]

lemma clampPad_h_only (h p : ℚ) (hh : 0 < h) :
    clampPad none (some h) p = min p (h * (1/2)) := by
  by_cases hp : p = 0
  · subst hp
    rw [show clampPad none (some h) 0 = 0 by simp [clampPad, truthyQ]]
    exact (min_eq_left (by positivity)).symm
  · simp [clampPad, truthyQ, hp, ne_of_gt hh]

lemma clampPad_both (w h p : ℚ) (hw : 0 < w) (hh : 0 < h) :
    clampPad (some w) (some h) p = min (min p (w * (1/2))) (h * (1/2)) := by
  by_cases hp : p = 0
  · subst hp
    rw [show clampPad (some w) (some h) 0 = 0 by simp [clampPad, truthyQ]]
    rw [min_eq_left (by positivity : (0:ℚ) ≤ w * (1/2)),
        min_eq_left (by positivity : (0:ℚ) ≤ h * (1/2))]
  · have hmin : min p (w * (1/2)) ≠ 0 := by
      rcases le_total p (w * (1/2)) with hle | hle
      · rw [min_eq_left hle]; exact hp
      · rw [min_eq_right hle]; positivity
    simp only [clampPad, truthyQ, Option.getD_some, decide_eq_true_eq, ne_eq]
    rw [if_pos (show ¬w = 0 ∧ ¬p = 0 from ⟨by simpa using ne_of_gt hw, hp⟩),
        if_pos (show ¬h = 0 ∧ ¬(min p (w * (1/2))) = 0 from
          ⟨by simpa using ne_of_gt hh, hmin⟩)]

lemma clampPad_none (p : ℚ) : clampPad none none p = p := by
  simp [clampPad, truthyQ]

/-- C6: for a requested (positive) width, and independently for a requested
(positive) height, and every padding value, the padding is clamped to
`min(padding, requestedDimension * 0.5)`; the clamps apply independently per
dimension and only when that dimension was requested (an unrequested
dimension leaves the padding unchanged). -/
theorem padding_clamp :
    (∀ w p : ℚ, 0 < w → clampPad (some w) none p = min p (w * (1/2))) ∧
    (∀ h p : ℚ, 0 < h → clampPad none (some h) p = min p (h * (1/2))) ∧
    (∀ w h p : ℚ, 0 < w → 0 < h →
      clampPad (some w) (some h) p = min (min p (w * (1/2))) (h * (1/2))) ∧
    (∀ p : ℚ, clampPad none none p = p) :=
  ⟨clampPad_w_only, clampPad_h_only, clampPad_both, clampPad_none⟩

theorem padding_clamp_witness :
    clampPad (some 10) none 7 = 5 ∧ clampPad (some 10) (some 4) 7 = 2 := by
  constructor
  · rw [padding_clamp.1 10 7 (by norm_num)]; norm_num
  · rw [padding_clamp.2.2.1 10 4 7 (by norm_num) (by norm_num)]; norm_num

lemma clampPad_eq_self_w (w p : ℚ) (hw : 0 < w) (hpw : 2 * p ≤ w) :
    clampPad (some w) none p = p := by
  rw [clampPad_w_only w p hw]
  exact min_eq_left (by linarith)

lemma clampPad_eq_self_both (w h p : ℚ) (hw : 0 < w) (hh : 0 < h)
    (hpw : 2 * p ≤ w) (hph : 2 * p ≤ h) :
    clampPad (some w) (some h) p = p := by
  rw [clampPad_both w h p hw hh,
      min_eq_left (show p ≤ w * (1/2) by linarith),
      min_eq_left (show p ≤ h * (1/2) by linarith)]

lemma shapesToSvgLayout_w_only (shapes : List Shape) (cw ch w p : ℚ)
    (hsz : getSizeFromShapes shapes = (cw, ch)) (hw : 0 < w)
    (hpw : 2 * p ≤ w) :
    (shapesToSvgLayout shapes (some w) none p 1).height
        = (w - 2 * p) / (cw / ch) + 2 * p ∧
    (shapesToSvgLayout shapes (some w) none p 1).contentScalar
        = (w - 2 * p) / cw := by
  have hpad : clampPad (some w) none p = p := clampPad_eq_self_w w p hw hpw
  have hw' : w ≠ 0 := ne_of_gt hw
  simp [shapesToSvgLayout, hsz, hpad, truthyQ, hw']
  constructor <;> ring_nf

lemma shapesToSvgLayout_both (shapes : List Shape) (cw ch w h p : ℚ)
    (hsz : getSizeFromShapes shapes = (cw, ch)) (hw : 0 < w) (hh : 0 < h)
    (hpw : 2 * p ≤ w) (hph : 2 * p ≤ h) :
    (shapesToSvgLayout shapes (some w) (some h) p 1).contentScalar
        = min ((h - 2 * p) / ch) ((w - 2 * p) / cw) ∧
    (shapesToSvgLayout shapes (some w) (some h) p 1).width = w ∧
    (shapesToSvgLayout shapes (some w) (some h) p 1).height = h := by
  have hpad : clampPad (some w) (some h) p = p :=
    clampPad_eq_self_both w h p hw hh hpw hph
  have hw' : w ≠ 0 := ne_of_gt hw
  have hh' : h ≠ 0 := ne_of_gt hh
  simp [shapesToSvgLayout, hsz, hpad, truthyQ, hw', hh']
  ring_nf

/-- C2: with positive content extents `(cw, ch)`, positive requested
dimensions, and a padding that survives the clamp, the projector resolves
sizes as specified: width-only gives
`outputHeight = (width - 2*padding) / (cw/ch) + 2*padding` and
`contentScalar = (width - 2*padding) / cw` (so extents 100×50 with padding 0
and width 200 give height 100 and contentScalar 2); width and height
together give `contentScalar = min((height-2*padding)/ch, (width-2*padding)/cw)`
with the output dimensions exactly the requested values. -/
theorem layout_size_resolution :
    (∀ (shapes : List Shape) (cw ch w p : ℚ),
      getSizeFromShapes shapes = (cw, ch) → 0 < cw → 0 < ch → 0 < w →
      2 * p ≤ w →
      (shapesToSvgLayout shapes (some w) none p 1).height
          = (w - 2 * p) / (cw / ch) + 2 * p ∧
      (shapesToSvgLayout shapes (some w) none p 1).contentScalar
          = (w - 2 * p) / cw) ∧
    (∀ shapes : List Shape, getSizeFromShapes shapes = (100, 50) →
      (shapesToSvgLayout shapes (some 200) none 0 1).height = 100 ∧
      (shapesToSvgLayout shapes (some 200) none 0 1).contentScalar = 2) ∧
    (∀ (shapes : List Shape) (cw ch w h p : ℚ),
      getSizeFromShapes shapes = (cw, ch) → 0 < cw → 0 < ch → 0 < w →
      0 < h → 2 * p ≤ w → 2 * p ≤ h →
      (shapesToSvgLayout shapes (some w) (some h) p 1).contentScalar
          = min ((h - 2 * p) / ch) ((w - 2 * p) / cw) ∧
      (shapesToSvgLayout shapes (some w) (some h) p 1).width = w ∧
      (shapesToSvgLayout shapes (some w) (some h) p 1).height = h) := by
  refine ⟨?_, ?_, ?_⟩
  · intro shapes cw ch w p hsz hcw hch hw hpw
    exact shapesToSvgLayout_w_only shapes cw ch w p hsz hw hpw
  · intro shapes hsz
    have h := shapesToSvgLayout_w_only shapes 100 50 200 0 hsz (by norm_num)
      (by norm_num)
    rcases h with ⟨h1, h2⟩
    rw [h1, h2]
    norm_num
  · intro shapes cw ch w h p hsz hcw hch hw hh hpw hph
    exact shapesToSvgLayout_both shapes cw ch w h p hsz hw hh hpw hph

theorem layout_size_resolution_witness :
    (shapesToSvgLayout [⟨0, 0, 100, 50, [], []⟩] (some 200) none 0 1).height
        = 100 ∧
    (shapesToSvgLayout [⟨0, 0, 100, 50, [], []⟩] (some 200) none 0 1).contentScalar
        = 2 ∧
    (shapesToSvgLayout [⟨0, 0, 100, 50, [], []⟩] (some 220) (some 80) 10 1).contentScalar
        = 6/5 := by
  have hsz : getSizeFromShapes [(⟨0, 0, 100, 50, [], []⟩ : Shape)] = (100, 50) := by
    norm_num [getSizeFromShapes, MAX_SAFE_INTEGER]
  obtain ⟨h1, h2⟩ := layout_size_resolution.2.1 _ hsz
  have h3 := (layout_size_resolution.2.2 _ 100 50 220 80 10 hsz (by norm_num)
    (by norm_num) (by norm_num) (by norm_num) (by norm_num) (by norm_num)).1
  refine ⟨h1, h2, ?_⟩
  rw [h3]
  norm_num

/-! Style filtering (source lines 85–93 and 122–135). -/

lemma styles_filterMap_eq (style : String → String) (L : List (String × String)) :
    L.filterMap (fun pv => if style pv.1 = pv.2 then none else some (pv.1, style pv.1))
      = (L.filter (fun pv => decide (style pv.1 ≠ pv.2))).map
          (fun pv => (pv.1, style pv.1)) := by
  induction L with
  | nil => rfl
  | cons a L ih =>
    by_cases h : style a.1 = a.2
    · simp [List.filterMap_cons, List.filter_cons, h, ih]
    · simp [List.filterMap_cons, List.filter_cons, h, ih]

lemma filter_changed_singleton (style : String → String) :
    ∀ (L : List (String × String)), (L.map Prod.fst).Nodup →
    ∀ p d, (p, d) ∈ L → style p ≠ d →
    (∀ qv ∈ L, qv.1 ≠ p → style qv.1 = qv.2) →
    L.filter (fun pv => decide (style pv.1 ≠ pv.2)) = [(p, d)] := by
  intro L
  induction L with
  | nil => intro _ p d hmem; exact absurd hmem (List.not_mem_nil _)
  | cons a L ih =>
    intro hnd p d hmem hne hall
    have hnd2 := hnd
    rw [List.map_cons, List.nodup_cons] at hnd2
    rcases List.mem_cons.mp hmem with heq | hmemL
    · subst heq
      have hnil : L.filter (fun pv => decide (style pv.1 ≠ pv.2)) = [] := by
        rw [List.filter_eq_nil_iff]
        intro qv hqv
        have hq : qv.1 ≠ p := by
          intro hq
          have hmm : qv.1 ∈ L.map Prod.fst := List.mem_map_of_mem Prod.fst hqv
          rw [hq] at hmm
          exact hnd2.1 hmm
        simp [hall qv (List.mem_cons_of_mem _ hqv) hq]
      rw [List.filter_cons, if_pos (by simpa using hne), hnil]
    · have hap : a.1 ≠ p := by
        intro hap
        have hmm : (p, d).1 ∈ L.map Prod.fst := List.mem_map_of_mem Prod.fst hmemL
        rw [← hap] at hmm
        exact hnd2.1 hmm
      have ha : style a.1 = a.2 := hall a (List.mem_cons_self a L) hap
      rw [List.filter_cons, if_neg (by simp [ha])]
      exact ih hnd2.2 p d hmemL hne (fun qv hqv => hall qv (List.mem_cons_of_mem _ hqv))

/-- C9: the styles of a produced shape are exactly the tracked properties of
`RelevantShapeStyles` whose resolved value differs (as a string) from the
ignorable default, each paired with its resolved value, in the canonical
property-list order; a lookup resolving every default yields the empty list,
and changing exactly one tracked property yields the singleton list of that
property. -/
theorem style_filter :
    (∀ (rect : Rect) (style : String → String) (text : List Char),
      (toShape rect style text).styles
        = (RelevantShapeStyles.filter (fun pv => decide (style pv.1 ≠ pv.2))).map
            (fun pv => (pv.1, style pv.1))) ∧
    (∀ (rect : Rect) (style : String → String) (text : List Char),
      (∀ pv ∈ RelevantShapeStyles, style pv.1 = pv.2) →
      (toShape rect style text).styles = []) ∧
    (∀ (rect : Rect) (style : String → String) (text : List Char) (p d : String),
      (p, d) ∈ RelevantShapeStyles → style p ≠ d →
      (∀ qv ∈ RelevantShapeStyles, qv.1 ≠ p → style qv.1 = qv.2) →
      (toShape rect style text).styles = [(p, style p)]) := by
  refine ⟨?_, ?_, ?_⟩
  · intro rect style text
    exact styles_filterMap_eq style RelevantShapeStyles
  · intro rect style text hall
    rw [show (toShape rect style text).styles = _ from
      styles_filterMap_eq style RelevantShapeStyles]
    rw [List.filter_eq_nil_iff.mpr (fun pv hpv => by simp [hall pv hpv])]
    rfl
  · intro rect style text p d hmem hne hall
    rw [show (toShape rect style text).styles = _ from
      styles_filterMap_eq style RelevantShapeStyles]
    rw [filter_changed_singleton style RelevantShapeStyles (by decide) p d hmem hne hall]
    rfl

/-- A style lookup that resolves every tracked property to its default except
`color`, which resolves to `red`. -/
def witnessStyleLookup : String → String := fun p =>
  if p = ("color") then ("red")
  else if p = ("background-color") then ("rgba(0, 0, 0, 0)")
  else if p = ("font-size") then ("0px")
  else if p = ("font-family") then ("sans-serif")
  else if p = ("font-weight") then ("400")
  else ("normal")

theorem style_filter_witness :
    (toShape ⟨0, 0, 0, 0⟩ witnessStyleLookup []).styles
      = [(("color"), witnessStyleLookup ("color"))] ∧
    (toShape ⟨0, 0, 0, 0⟩ (fun p => (RelevantShapeStyles.lookup p).getD ("")) []).styles
      = [] := by
  constructor
  · exact style_filter.2.2 ⟨0, 0, 0, 0⟩ witnessStyleLookup [] ("color")
      ("rgba(0, 0, 0, 0)") (by decide) (by decide) (by decide)
  · exact style_filter.2.1 ⟨0, 0, 0, 0⟩ _ [] (by decide)

/-! Format validation (source line 40). -/

lemma startsWithL_iff (pat l : List Char) :
    startsWithL pat l = true ↔ ∃ rest, l = pat ++ rest := by
  induction pat generalizing l with
  | nil =>
    exact ⟨fun _ => ⟨l, rfl⟩, fun _ => rfl⟩
  | cons p ps ih =>
    cases l with
    | nil => simp [startsWithL]
    | cons c cs =>
      simp only [startsWithL, Bool.and_eq_true, decide_eq_true_eq, ih,
        List.cons_append, List.cons.injEq]
      constructor
      · rintro ⟨rfl, rest, rfl⟩
        exact ⟨rest, rfl, rfl⟩
      · rintro ⟨rest, rfl, rfl⟩
        exact ⟨rfl, rest, rfl⟩

lemma hasSub_iff (l pat : List Char) :
    hasSub l pat = true ↔ ∃ pre post, l = pre ++ pat ++ post := by
  induction l with
  | nil =>
    rw [show hasSub [] pat = startsWithL pat [] from rfl, startsWithL_iff]
    constructor
    · rintro ⟨rest, h⟩
      rcases List.append_eq_nil.mp h.symm with ⟨rfl, rfl⟩
      exact ⟨[], [], rfl⟩
    · rintro ⟨pre, post, h⟩
      rcases List.append_eq_nil.mp h.symm with ⟨h1, rfl⟩
      rcases List.append_eq_nil.mp h1 with ⟨rfl, rfl⟩
      exact ⟨[], rfl⟩
  | cons c r ih =>
    rw [show hasSub (c :: r) pat = (startsWithL pat (c :: r) || hasSub r pat) from rfl]
    rw [Bool.or_eq_true, startsWithL_iff, ih]
    constructor
    · rintro (⟨rest, h⟩ | ⟨pre, post, h⟩)
      · exact ⟨[], rest, by simpa using h⟩
      · exact ⟨c :: pre, post, by simp [h]⟩
    · rintro ⟨pre, post, h⟩
      cases pre with
      | nil => exact Or.inl ⟨post, by simpa using h⟩
      | cons x xs =>
        rw [List.cons_append, List.cons_append, List.cons.injEq] at h
        exact Or.inr ⟨xs, post, by simp [h.2]⟩

/-- The spec-side notion of substring containment (the claim speaks of the
set `{svg, canvas, img, blob}`; the code instead tests containment of one of
these tokens). -/
def containsToken (format token : List Char) : Prop :=
  ∃ pre post, format = pre ++ token ++ post

/-- C4 amended: the snapshot operation raises the invalid-format error
exactly for format values that contain NONE of `canvas`, `img`, `svg`,
`blob` as a substring (the source check is a regex substring test, not set
membership); in particular each of the four exact values raises no
format error, but neither do other values such as `"imgx"` that merely
contain one of the tokens. -/
theorem format_validation_amended :
    (∀ format : List Char,
      formatAccepted format = false ↔
        ¬ (containsToken format ['c', 'a', 'n', 'v', 'a', 's'] ∨
           containsToken format ['i', 'm', 'g'] ∨
           containsToken format ['s', 'v', 'g'] ∨
           containsToken format ['b', 'l', 'o', 'b'])) ∧
    formatAccepted ['s', 'v', 'g'] = true ∧
    formatAccepted ['c', 'a', 'n', 'v', 'a', 's'] = true ∧
    formatAccepted ['i', 'm', 'g'] = true ∧
    formatAccepted ['b', 'l', 'o', 'b'] = true := by
  refine ⟨?_, by decide, by decide, by decide, by decide⟩
  intro format
  rw [← Bool.not_eq_true, formatAccepted]
  simp only [Bool.or_eq_true, hasSub_iff, containsToken, not_or]
  tauto

/-! Normalization (source lines 205–222). -/

lemma if_lt_eq_min (a b : ℚ) : (if b < a then b else a) = min a b := by
  rcases le_or_lt a b with h | h
  · rw [if_neg (not_lt.mpr h), min_eq_left h]
  · rw [if_pos h, min_eq_right h.le]

lemma foldl_min_le_init (l : List ℚ) (a : ℚ) : l.foldl min a ≤ a := by
  induction l generalizing a with
  | nil => exact le_refl a
  | cons x l ih => exact le_trans (ih (min a x)) (min_le_left a x)

lemma foldl_min_le_mem (l : List ℚ) (a x : ℚ) (hx : x ∈ l) : l.foldl min a ≤ x := by
  induction l generalizing a with
  | nil => exact absurd hx (List.not_mem_nil x)
  | cons y l ih =>
    rcases List.mem_cons.mp hx with rfl | hx2
    · exact le_trans (foldl_min_le_init l (min a x)) (min_le_right a x)
    · exact ih (min a y) hx2

lemma foldl_min_mem_or (l : List ℚ) (a : ℚ) :
    l.foldl min a = a ∨ l.foldl min a ∈ l := by
  induction l generalizing a with
  | nil => exact Or.inl rfl
  | cons y l ih =>
    rcases ih (min a y) with h | h
    · rw [List.foldl_cons, h]
      rcases min_choice a y with h2 | h2
      · exact Or.inl h2
      · exact Or.inr (by rw [h2]; exact List.mem_cons_self y l)
    · exact Or.inr (List.mem_cons_of_mem y h)

lemma le_foldl_min (l : List ℚ) (a b : ℚ) (hb : b ≤ a) (h : ∀ x ∈ l, b ≤ x) :
    b ≤ l.foldl min a := by
  induction l generalizing a with
  | nil => exact hb
  | cons y l ih =>
    exact ih (min a y) (le_min hb (h y (List.mem_cons_self y l)))
      (fun x hx => h x (List.mem_cons_of_mem y hx))

lemma normalizeShapes_eq (shapes : List Shape) :
    normalizeShapes shapes = shapes.map (fun s =>
      { s with x := s.x - (shapes.map Shape.x).foldl min MAX_SAFE_INTEGER,
               y := s.y - (shapes.map Shape.y).foldl min MAX_SAFE_INTEGER }) := by
  have hsplit : ∀ (l : List Shape) (a b : ℚ),
      l.foldl (fun (acc : ℚ × ℚ) s =>
        (if s.x < acc.1 then s.x else acc.1,
         if s.y < acc.2 then s.y else acc.2)) (a, b)
      = ((l.map Shape.x).foldl min a, (l.map Shape.y).foldl min b) := by
    intro l
    induction l with
    | nil => intro a b; rfl
    | cons s l ih =>
      intro a b
      simp only [List.foldl_cons, List.map_cons, ih]
      simp only [if_lt_eq_min]
  unfold normalizeShapes
  rw [hsplit]

/-- C7 amended: for every non-empty shape list that contains a shape with
`x ≤ Number.MAX_SAFE_INTEGER` and one with `y ≤ Number.MAX_SAFE_INTEGER`
(the sentinel that initialises the running minima — the unamended claim
fails when every coordinate exceeds it), the normalized list has minimum `x`
and minimum `y` exactly `0`, and re-normalizing changes no shape. -/
theorem normalize_origin_amended :
    ∀ shapes : List Shape, shapes ≠ [] →
    (∃ s ∈ shapes, s.x ≤ MAX_SAFE_INTEGER) →
    (∃ s ∈ shapes, s.y ≤ MAX_SAFE_INTEGER) →
    (∀ s ∈ normalizeShapes shapes, 0 ≤ s.x ∧ 0 ≤ s.y) ∧
    (∃ s ∈ normalizeShapes shapes, s.x = 0) ∧
    (∃ s ∈ normalizeShapes shapes, s.y = 0) ∧
    normalizeShapes (normalizeShapes shapes) = normalizeShapes shapes := by
  intro shapes hne hx hy
  obtain ⟨sx, hsxm, hsx⟩ := hx
  obtain ⟨sy, hsym, hsy⟩ := hy
  have hXle : ∀ s ∈ shapes,
      (shapes.map Shape.x).foldl min MAX_SAFE_INTEGER ≤ s.x := fun s hs =>
    foldl_min_le_mem _ _ _ (List.mem_map_of_mem Shape.x hs)
  have hYle : ∀ s ∈ shapes,
      (shapes.map Shape.y).foldl min MAX_SAFE_INTEGER ≤ s.y := fun s hs =>
    foldl_min_le_mem _ _ _ (List.mem_map_of_mem Shape.y hs)
  have hXmem : ∃ s ∈ shapes,
      (shapes.map Shape.x).foldl min MAX_SAFE_INTEGER = s.x := by
    rcases foldl_min_mem_or (shapes.map Shape.x) MAX_SAFE_INTEGER with h | h
    · exact ⟨sx, hsxm, le_antisymm (hXle sx hsxm) (by rw [h]; exact hsx)⟩
    · obtain ⟨s, hs, hxeq⟩ := List.mem_map.mp h
      exact ⟨s, hs, hxeq.symm⟩
  have hYmem : ∃ s ∈ shapes,
      (shapes.map Shape.y).foldl min MAX_SAFE_INTEGER = s.y := by
    rcases foldl_min_mem_or (shapes.map Shape.y) MAX_SAFE_INTEGER with h | h
    · exact ⟨sy, hsym, le_antisymm (hYle sy hsym) (by rw [h]; exact hsy)⟩
    · obtain ⟨s, hs, hyeq⟩ := List.mem_map.mp h
      exact ⟨s, hs, hyeq.symm⟩
  obtain ⟨sX0, hsX0, hXeq⟩ := hXmem
  obtain ⟨sY0, hsY0, hYeq⟩ := hYmem
  have hpos : ∀ s ∈ normalizeShapes shapes, 0 ≤ s.x ∧ 0 ≤ s.y := by
    rw [normalizeShapes_eq shapes]
    rintro s' hs'
    obtain ⟨s, hs, rfl⟩ := List.mem_map.mp hs'
    exact ⟨sub_nonneg.mpr (hXle s hs), sub_nonneg.mpr (hYle s hs)⟩
  have hex : ∃ s ∈ normalizeShapes shapes, s.x = 0 := by
    rw [normalizeShapes_eq shapes]
    refine ⟨_, List.mem_map_of_mem _ hsX0, ?_⟩
    show sX0.x - _ = 0
    rw [hXeq, sub_self]
  have hey : ∃ s ∈ normalizeShapes shapes, s.y = 0 := by
    rw [normalizeShapes_eq shapes]
    refine ⟨_, List.mem_map_of_mem _ hsY0, ?_⟩
    show sY0.y - _ = 0
    rw [hYeq, sub_self]
  have hminX0 : ((normalizeShapes shapes).map Shape.x).foldl min MAX_SAFE_INTEGER = 0 := by
    apply le_antisymm
    · obtain ⟨s0, hs0, hx0⟩ := hex
      have hm : (0 : ℚ) ∈ (normalizeShapes shapes).map Shape.x := by
        rw [← hx0]
        exact List.mem_map_of_mem Shape.x hs0
      exact foldl_min_le_mem _ _ _ hm
    · refine le_foldl_min _ _ _ (by norm_num [MAX_SAFE_INTEGER]) ?_
      intro v hv
      obtain ⟨s, hs, rfl⟩ := List.mem_map.mp hv
      exact (hpos s hs).1
  have hminY0 : ((normalizeShapes shapes).map Shape.y).foldl min MAX_SAFE_INTEGER = 0 := by
    apply le_antisymm
    · obtain ⟨s0, hs0, hy0⟩ := hey
      have hm : (0 : ℚ) ∈ (normalizeShapes shapes).map Shape.y := by
        rw [← hy0]
        exact List.mem_map_of_mem Shape.y hs0
      exact foldl_min_le_mem _ _ _ hm
    · refine le_foldl_min _ _ _ (by norm_num [MAX_SAFE_INTEGER]) ?_
      intro v hv
      obtain ⟨s, hs, rfl⟩ := List.mem_map.mp hv
      exact (hpos s hs).2
  refine ⟨hpos, hex, hey, ?_⟩
  rw [normalizeShapes_eq (normalizeShapes shapes)]
  simp only [hminX0, hminY0, sub_zero]
  rw [show (fun (s : Shape) => { s with x := s.x, y := s.y }) = id from
    funext fun s => by cases s; rfl]
  exact List.map_id _

theorem normalize_origin_amended_witness :
    (∃ s ∈ normalizeShapes [(⟨3, 5, 1, 1, [], []⟩ : Shape)], s.x = 0) ∧
    normalizeShapes (normalizeShapes [(⟨3, 5, 1, 1, [], []⟩ : Shape)])
      = normalizeShapes [(⟨3, 5, 1, 1, [], []⟩ : Shape)] := by
  have h := normalize_origin_amended [(⟨3, 5, 1, 1, [], []⟩ : Shape)]
    (by simp)
    ⟨⟨3, 5, 1, 1, [], []⟩, by simp, by norm_num [MAX_SAFE_INTEGER]⟩
    ⟨⟨3, 5, 1, 1, [], []⟩, by simp, by norm_num [MAX_SAFE_INTEGER]⟩
  exact ⟨h.2.1, h.2.2.2⟩

/-! Text encoding (source lines 260–267). -/

lemma replaceChar_append (a b : List Char) (t : Char) (r : List Char) :
    replaceChar (a ++ b) t r = replaceChar a t r ++ replaceChar b t r := by
  simp [replaceChar]

lemma encodeSvgText_append (a b : List Char) :
    encodeSvgText (a ++ b) = encodeSvgText a ++ encodeSvgText b := by
  simp [encodeSvgText, replaceChar_append]

lemma encodeSvgText_single (c : Char) : encodeSvgText [c] = encChar c := by
  by_cases h1 : c = '&'
  · subst h1; decide
  by_cases h2 : c = '%'
  · subst h2; decide
  by_cases h3 : c = '#'
  · subst h3; decide
  by_cases h4 : c = ' '
  · subst h4; decide
  by_cases h5 : c = '<'
  · subst h5; decide
  by_cases h6 : c = '>'
  · subst h6; decide
  simp [encodeSvgText, replaceChar, encChar, h1, h2, h3, h4, h5, h6]

lemma encodeSvgText_eq_flatMap (l : List Char) :
    encodeSvgText l = l.flatMap encChar := by
  induction l with
  | nil => rfl
  | cons c l ih =>
    rw [show (c :: l) = [c] ++ l from rfl, encodeSvgText_append, ih,
      encodeSvgText_single]
    simp

lemma escapedWellFormed_append_encChar (c : Char) (rest : List Char)
    (h : escapedWellFormed rest = true) :
    escapedWellFormed (encChar c ++ rest) = true := by
  by_cases h1 : c = '&'
  · subst h1; simp [encChar, escapedWellFormed, h]
  by_cases h2 : c = '%'
  · subst h2; simp [encChar, escapedWellFormed, h]
  by_cases h3 : c = '#'
  · subst h3; simp [encChar, escapedWellFormed, h]
  by_cases h4 : c = ' '
  · subst h4; simp [encChar, escapedWellFormed, h]
  by_cases h5 : c = '<'
  · subst h5; simp [encChar, escapedWellFormed, h]
  by_cases h6 : c = '>'
  · subst h6; simp [encChar, escapedWellFormed, h]
  simp [encChar, escapedWellFormed, h1, h2, h3, h4, h5, h6, h]

lemma mem_encChar_not_special (c x : Char) (hx : x ∈ encChar c) :
    x ≠ '<' ∧ x ≠ '>' ∧ x ≠ ' ' := by
  by_cases h1 : c = '&'
  · subst h1; simp [encChar] at hx; rcases hx with rfl | rfl | rfl | rfl | rfl <;> decide
  by_cases h2 : c = '%'
  · subst h2; simp [encChar, h1] at hx
    rcases hx with rfl | rfl | rfl <;> decide
  by_cases h3 : c = '#'
  · subst h3; simp [encChar, h1, h2] at hx
    rcases hx with rfl | rfl | rfl <;> decide
  by_cases h4 : c = ' '
  · subst h4; simp [encChar, h1, h2, h3] at hx
    rcases hx with rfl | rfl | rfl | rfl | rfl | rfl <;> decide
  by_cases h5 : c = '<'
  · subst h5; simp [encChar, h1, h2, h3, h4] at hx
    rcases hx with rfl | rfl | rfl | rfl <;> decide
  by_cases h6 : c = '>'
  · subst h6; simp [encChar, h1, h2, h3, h4, h5] at hx
    rcases hx with rfl | rfl | rfl | rfl <;> decide
  simp [encChar, h1, h2, h3, h4, h5, h6] at hx
  subst hx
  exact ⟨h5, h6, h4⟩

/-- C8 amended: the encoder performs the six global replacements in the
stated source order; for every input the result contains no literal `<`, `>`
or space, and every remaining `%`, `#` or `&` is part of an escape the
encoder itself produced: each `%` begins a produced `%25` or `%23`, each `#`
occurs only inside a produced `&#160;`, and each `&` begins a produced
`&amp;`, `&#160;`, `&lt;` or `&gt;` (the original claim's blanket ban on
literal `%` and `#` fails, since those escapes themselves contain `%` and
`#`). -/
theorem encode_escape_amended :
    ∀ str : List Char,
      escapedWellFormed (encodeSvgText str) = true ∧
      '<' ∉ encodeSvgText str ∧
      '>' ∉ encodeSvgText str ∧
      ' ' ∉ encodeSvgText str := by
  intro str
  rw [encodeSvgText_eq_flatMap]
  refine ⟨?_, ?_, ?_, ?_⟩
  · induction str with
    | nil => simp [escapedWellFormed]
    | cons c l ih =>
      rw [List.flatMap_cons]
      exact escapedWellFormed_append_encChar c _ ih
  · intro hmem
    obtain ⟨c, _, hx⟩ := List.mem_flatMap.mp hmem
    exact (mem_encChar_not_special c '<' hx).1 rfl
  · intro hmem
    obtain ⟨c, _, hx⟩ := List.mem_flatMap.mp hmem
    exact (mem_encChar_not_special c '>' hx).2.1 rfl
  · intro hmem
    obtain ⟨c, _, hx⟩ := List.mem_flatMap.mp hmem
    exact (mem_encChar_not_special c ' ' hx).2.2 rfl

/-- C8 counterexample: the escaped output can contain a literal `%` (escaping
`"#"` yields `"%23"`) and a literal `#` (escaping `" "` yields `"&#160;"`),
contradicting the claim that the result contains no literal `%` or `#`
character. -/
theorem encode_literals_counterexample :
    encodeSvgText ['#'] = ['%', '2', '3'] ∧
    '%' ∈ encodeSvgText ['#'] ∧
    encodeSvgText [' '] = ['&', '#', '1', '6', '0', ';'] ∧
    '#' ∈ encodeSvgText [' '] := by
  refine ⟨?_, ?_, ?_, ?_⟩ <;> decide

end SnapText
